import Mathlib

/-!
Verification development for the mu-protocol core of the `hutt` mail client.

The definitions below are a shallow embedding of the Rust sources:
  * `src/mu_sexp.rs`  — frame codec, s-expression accessors, response
    classification predicates, envelope decoding;
  * `src/mu_client.rs` — the response-processing loops of `find`,
    `move_msg` and `poll_index_frame`;
  * `src/envelope.rs` — the envelope/conversation data model and
    `group_into_conversations`;
  * `src/tui/mod.rs`  — the guard structure of the event-loop select arms.

External crates (the `lexpr` text parser and `chrono`'s timestamp
constructor) are not part of this repository; where a source function calls
into them, the embedding takes the external function as an explicit
argument, so every theorem quantifies over its behaviour.
-/

namespace Hutt

/-- Model of the `lexpr::Value` type as used by the mu server protocol
(`src/mu_sexp.rs`): integers, strings, symbols, colon-prefixed keywords, the
special `nil` value (lexpr's `Value::Nil`, produced by `NilSymbol::Special`),
the empty list (lexpr's `Value::Null`), and cons cells. -/
inductive Sexp where
  | num (n : Int)
  | str (s : String)
  | sym (s : String)
  | kw (s : String)
  | nilv
  | null
  | cons (car cdr : Sexp)
deriving Repr, DecidableEq, Inhabited

/-- Build a proper list value (convenience for concrete protocol frames). -/
def sexpList : List Sexp → Sexp
  | [] => Sexp.null
  | x :: xs => Sexp.cons x (sexpList xs)

/-- The cars of the cons cells of a value, in order; models iterating
`lexpr::Cons::iter()` and taking `.car()` of each cell (iteration stops at
the first non-cons cdr). -/
def Sexp.cells : Sexp → List Sexp
  | .cons a d => a :: d.cells
  | _ => []

/-- Models `Value::as_cons`: succeeds only on a cons cell; returns the cars
of all cells (the shape every accessor below iterates over). -/
def Sexp.asCons : Sexp → Option (List Sexp)
  | .cons a d => some (a :: Sexp.cells d)
  | _ => none

/-- Models `Value::as_str`. -/
def Sexp.asStr : Sexp → Option String
  | .str s => some s
  | _ => none

/-- Models `Value::as_symbol`. -/
def Sexp.asSymbol : Sexp → Option String
  | .sym s => some s
  | _ => none

/-- Models `Value::is_symbol`. -/
def Sexp.isSymbol : Sexp → Bool
  | .sym _ => true
  | _ => false

/-- Models `Value::is_nil` (true only for the special nil value). -/
def Sexp.isNil : Sexp → Bool
  | .nilv => true
  | _ => false

/-- Models `Value::as_keyword`. -/
def Sexp.asKeyword : Sexp → Option String
  | .kw s => some s
  | _ => none

/-- Models `Value::as_u64`: an integer in `[0, 2^64)`. -/
def Sexp.asU64 : Sexp → Option Nat
  | .num n => if 0 ≤ n ∧ n < (2 : Int) ^ 64 then some n.toNat else none
  | _ => none

/-- The shared scanning loop of the plist accessors in `src/mu_sexp.rs`
(`plist_get`, `plist_get_str`, `plist_get_u32` and `plist_get_bool` all run
the identical `while let` loop): walk the item cars in order; at the first
car that is the keyword `key`, return the next car if one exists (if the
keyword is the last item the loop simply ends with no result).  Note the
loop does not skip over the value of a non-matching keyword: that value is
itself inspected as a potential keyword on the next iteration, exactly as
the `iter.next()` structure of the source does. -/
def plistFind (key : String) : List Sexp → Option Sexp
  | [] => none
  | .kw k :: rest =>
    if k == key then
      match rest with
      | [] => none
      | v :: _ => some v
    else plistFind key rest
  | _ :: rest => plistFind key rest

/-- Models `plist_get`: the raw value following the matching keyword. -/
def plist_get (plist : Sexp) (key : String) : Option Sexp :=
  (plist.asCons).bind (plistFind key)

/-- Models `plist_get_str`: the scan of `plist_get` followed by `as_str`
on the first match (a non-string value under the key yields `none`). -/
def plist_get_str (plist : Sexp) (key : String) : Option String :=
  (plist_get plist key).bind Sexp.asStr

/-- Models `plist_get_u32`: `as_u64` on the first match, then the Rust
`as u32` truncating cast. -/
def plist_get_u32 (plist : Sexp) (key : String) : Option Nat :=
  ((plist_get plist key).bind Sexp.asU64).map (fun n => n % 2 ^ 32)

/-- Models `plist_get_bool`: a symbol value is `true` exactly when it is
`t`; a non-symbol value is coerced to `!is_nil`. -/
def plist_get_bool (plist : Sexp) (key : String) : Option Bool :=
  (plist_get plist key).map (fun car =>
    if car.isSymbol then car.asSymbol == some "t" else !car.isNil)

/-- Models `is_error` (`src/mu_sexp.rs` lines 267–283): the `:error` key
marks an error; the text preference order is `:message` string, then
`:error` string, then numeric `:error` rendered as `error code N`, then a
generic fallback. -/
def is_error (value : Sexp) : Option String :=
  if (plist_get value "error").isSome then
    match plist_get_str value "message" with
    | some msg => some msg
    | none =>
      match plist_get_str value "error" with
      | some s => some s
      | none =>
        match plist_get_u32 value "error" with
        | some code => some ("error code " ++ toString code)
        | none => some "unknown error"
  else none

/-- Models `is_found`: the value under `:found` if present. -/
def is_found (value : Sexp) : Option Nat :=
  plist_get_u32 value "found"

/-- Models `is_pong`. -/
def is_pong (value : Sexp) : Bool :=
  (plist_get_str value "pong").isSome

/-- Models `is_erase`. -/
def is_erase (value : Sexp) : Bool :=
  (plist_get_bool value "erase").getD false

/-- Models `is_update`. -/
def is_update (value : Sexp) : Bool :=
  (plist_get value "update").isSome

/-- The Rust `as i64` cast of a `u64` value (two's-complement
reinterpretation). -/
def int64OfUInt64 (u : Nat) : Int :=
  if u < 2 ^ 63 then (u : Int) else (u : Int) - 2 ^ 64

/-- Models `parse_emacs_time` (`src/mu_sexp.rs` lines 140–151): a cons list
of at least two integers `(high low ...)`; `seconds = high * 65536 + low`
computed in `u64` (wrapping modelled as release-mode semantics) and cast
`as i64`, then handed to `Utc.timestamp_opt(seconds, 0).single()`.  The
chrono constructor is external to the repository, so it is taken as the
argument `mk` (returning the timestamp, modelled by its epoch seconds, or
`none` when out of chrono's calendar range).  The early returns of the
Rust `?` operator on the two `as_u64()` extractions are modelled with
`Option.bind`. -/
def parse_emacs_time (mk : Int → Option Int) (value : Sexp) : Option Int :=
  match value.asCons with
  | none => none
  | some items =>
    match items with
    | high :: low :: _ =>
      high.asU64.bind fun h =>
        low.asU64.bind fun l =>
          mk (int64OfUInt64 ((h * 65536 + l) % 2 ^ 64))
    | _ => none

/-! ## Envelope data model (`src/envelope.rs`) -/

/-- Models `envelope::Address`. -/
structure Address where
  name : Option String
  email : String
deriving Repr, DecidableEq, Inhabited

/-- Models `envelope::Flag`. -/
inductive Flag where
  | seen | replied | flagged | trashed | draft | passed | list | unread
deriving Repr, DecidableEq, Inhabited

/-- Models `Flag::from_symbol`. -/
def Flag.from_symbol (s : String) : Option Flag :=
  if s == "seen" then some .seen
  else if s == "replied" then some .replied
  else if s == "flagged" then some .flagged
  else if s == "trashed" then some .trashed
  else if s == "draft" then some .draft
  else if s == "passed" then some .passed
  else if s == "list" then some .list
  else if s == "unread" then some .unread
  else none

/-- Models `envelope::ThreadMeta`. -/
structure ThreadMeta where
  level : Nat
  root : Bool
  threadSubject : Bool
deriving Repr, DecidableEq, Inhabited

/-- Models `ThreadMeta::default()`. -/
def ThreadMeta.defaultMeta : ThreadMeta :=
  { level := 0, root := true, threadSubject := true }

/-- Models `envelope::Envelope`.  `date` is the `DateTime<Utc>` modelled by
its epoch seconds; `path` is the file path as a string; the `from`/`to`
fields are renamed `fromAddrs`/`toAddrs` because `from` is a Lean keyword. -/
structure Envelope where
  docid : Nat
  messageId : String
  subject : String
  fromAddrs : List Address
  toAddrs : List Address
  date : Int
  flags : List Flag
  maildir : String
  path : String
  threadMeta : ThreadMeta
deriving Repr, DecidableEq, Inhabited

/-- Models `Envelope::is_unread`. -/
def Envelope.is_unread (e : Envelope) : Bool :=
  !(e.flags.contains Flag.seen)

/-! ## Envelope decoding (`src/mu_sexp.rs`) -/

/-- Models `parse_address`: an address plist needs `:email`; `:name` is
optional. -/
def parse_address (value : Sexp) : Option Address :=
  match plist_get_str value "email" with
  | none => none
  | some email => some { name := plist_get_str value "name", email := email }

/-- Models `parse_addresses`: a cons list of address plists, dropping the
malformed ones; a non-cons value yields the empty list. -/
def parse_addresses (value : Sexp) : List Address :=
  match value.asCons with
  | some items => items.filterMap parse_address
  | none => []

/-- Models `parse_flags`: a cons list of bare symbols mapped through
`Flag::from_symbol`, unrecognized ones dropped. -/
def parse_flags (value : Sexp) : List Flag :=
  match value.asCons with
  | some items => items.filterMap (fun x => x.asSymbol.bind Flag.from_symbol)
  | none => []

/-- Models `parse_thread_meta`. -/
def parse_thread_meta (value : Sexp) : ThreadMeta :=
  { level := (plist_get_u32 value "level").getD 0
    root := (plist_get_bool value "root").getD true
    threadSubject := (plist_get_bool value "thread-subject").getD true }

/-- Models `parse_envelope` (`src/mu_sexp.rs` lines 194–239): `:docid` is
required (a hard failure when absent), everything else has a default.  The
`mk` argument is chrono's timestamp constructor (see `parse_emacs_time`)
and `now` the epoch seconds of `Utc::now()`, the default used when the
`:date` field is absent or malformed. -/
def parse_envelope (mk : Int → Option Int) (now : Int) (value : Sexp) :
    Except String Envelope :=
  match plist_get_u32 value "docid" with
  | none => .error "missing docid in envelope"
  | some docid =>
    .ok
      { docid := docid
        messageId := (plist_get_str value "message-id").getD ""
        subject := (plist_get_str value "subject").getD "(no subject)"
        maildir := (plist_get_str value "maildir").getD ""
        path := (plist_get_str value "path").getD ""
        date := ((plist_get value "date").bind (parse_emacs_time mk)).getD now
        fromAddrs := ((plist_get value "from").map parse_addresses).getD []
        toAddrs := ((plist_get value "to").map parse_addresses).getD []
        flags := ((plist_get value "flags").map parse_flags).getD []
        threadMeta :=
          ((plist_get value "meta").map parse_thread_meta).getD
            ThreadMeta.defaultMeta }

/-- The `collect::<Result<Vec<_>, _>>()` over `parse_envelope` used by
`parse_find_response`: decode each header plist, stopping at the first
failure. -/
def parse_envelopes (mk : Int → Option Int) (now : Int) :
    List Sexp → Except String (List Envelope)
  | [] => .ok []
  | v :: rest =>
    match parse_envelope mk now v with
    | .error e => .error e
    | .ok env =>
      match parse_envelopes mk now rest with
      | .error e => .error e
      | .ok envs => .ok (env :: envs)

/-- Models `parse_find_response` (`src/mu_sexp.rs` lines 242–259): decode
the list under `:headers`; a missing `:headers` key or a non-cons value
there yields the empty batch, not an error. -/
def parse_find_response (mk : Int → Option Int) (now : Int) (value : Sexp) :
    Except String (List Envelope) :=
  match plist_get value "headers" with
  | some l =>
    match l.asCons with
    | some items => parse_envelopes mk now items
    | none => .ok []
  | none => .ok []

/-! ## Protocol client response loops (`src/mu_client.rs`) -/

/-- Models the response loop of `MuClient::find` (`src/mu_client.rs` lines
253–269) over the sequence of frames the server sends back, with `acc` the
accumulated envelopes: skip `:erase` frames, abort on an error frame, stop
and return the accumulator at a `:found` frame, otherwise decode the frame
as a header batch and append it.  An exhausted frame stream models the
server closing stdout, which `FrameReader::next_frame` reports as an
error. -/
def findLoop (mk : Int → Option Int) (now : Int) :
    List Sexp → List Envelope → Except String (List Envelope)
  | [], _ => .error "mu server closed stdout"
  | v :: rest, acc =>
    if is_erase v then findLoop mk now rest acc
    else
      match is_error v with
      | some e => .error ("mu find error: " ++ e)
      | none =>
        if (is_found v).isSome then .ok acc
        else
          match parse_find_response mk now v with
          | .error e => .error e
          | .ok batch => findLoop mk now rest (acc ++ batch)

/-- Models the response handling of `MuClient::move_msg` (`src/mu_client.rs`
lines 305–330) on the one meaningful response frame `resp` delivered by
`recv()` (which fails on an error frame): extract the new docid from the
`:update` sub-plist; on any shape mismatch fall back to the original
`docid`. -/
def move_msg_result (docid : Nat) (resp : Sexp) : Except String Nat :=
  match is_error resp with
  | some e => .error ("mu server error: " ++ e)
  | none =>
    match plist_get resp "update" with
    | some update =>
      match plist_get_u32 update "docid" with
      | some newDocid => .ok newDocid
      | none => .ok docid
    | none => .ok docid

/-- Models `MuClient::poll_index_frame` (`src/mu_client.rs` lines 346–370)
on one received frame: `Ok true` means indexing is complete, `Ok false`
means call again. -/
def poll_index_frame (value : Sexp) : Except String Bool :=
  if is_erase value then .ok false
  else
    match is_error value with
    | some e => .error ("mu index error: " ++ e)
    | none =>
      if (plist_get value "index").isSome then .ok true
      else if (plist_get value "info").isSome then .ok true
      else if is_update value then .ok false
      else .ok false

/-- The index-frame classification exactly as the specification words it
(spec §4.3): erase → not done; error → fail; a frame with an `:index` key
or one with an `:info` key → done; any other frame (including `:update`)
→ not done.  Written from the spec, to be compared with the
source-derived `poll_index_frame`. -/
def pollIndexSpec (value : Sexp) : Except String Bool :=
  if is_erase value then .ok false
  else
    match is_error value with
    | some e => .error ("mu index error: " ++ e)
    | none =>
      if (plist_get value "index").isSome || (plist_get value "info").isSome
      then .ok true
      else .ok false

/-! ## Conversation grouping (`src/envelope.rs`) -/

/-- Models `envelope::Conversation`. -/
structure Conversation where
  messages : List Envelope
deriving Repr, DecidableEq, Inhabited

/-- Models `Conversation::representative`: the latest unread message
scanning from the end, else the last message.  The source unwraps the last
message; the embedding returns an `Option`, `none` exactly when the source
would panic on an empty conversation. -/
def Conversation.representative (c : Conversation) : Option Envelope :=
  match c.messages.reverse.find? Envelope.is_unread with
  | some e => some e
  | none => c.messages.getLast?

/-- The loop body of `group_into_conversations` (`src/envelope.rs` lines
252–266): `current` is the group being accumulated, `convs` the finished
groups.  A new group starts at an envelope whose `root` flag is set or
whose `level` is 0; the trailing `current`, if non-empty, is flushed at the
end. -/
def groupGo : List Envelope → List Envelope → List Conversation →
    List Conversation
  | [], current, convs =>
    if current.isEmpty then convs else convs ++ [⟨current⟩]
  | e :: rest, current, convs =>
    let isThreadStart := e.threadMeta.root || e.threadMeta.level == 0
    if isThreadStart && !current.isEmpty then
      groupGo rest [e] (convs ++ [⟨current⟩])
    else
      groupGo rest (current ++ [e]) convs

/-- Models `group_into_conversations` (`src/envelope.rs` lines 244–269). -/
def group_into_conversations (envelopes : List Envelope) :
    List Conversation :=
  if envelopes.isEmpty then [] else groupGo envelopes [] []

/-! ## Frame codec (`src/mu_sexp.rs`, byte level) -/

/-- Models `Iterator::position` over a byte slice. -/
def position (p : Nat → Bool) : List Nat → Option Nat
  | [] => none
  | b :: rest => if p b then some 0 else (position p rest).map (· + 1)

/-- An ASCII hexadecimal digit byte (`0-9`, `a-f`, `A-F`), as accepted by
`char::to_digit(16)` inside `from_str_radix`. -/
def isHexDigitByte (b : Nat) : Bool :=
  (0x30 ≤ b && b ≤ 0x39) || (0x61 ≤ b && b ≤ 0x66) || (0x41 ≤ b && b ≤ 0x46)

/-- The numeric value of an ASCII hexadecimal digit byte. -/
def hexDigitVal (b : Nat) : Nat :=
  if 0x30 ≤ b && b ≤ 0x39 then b - 0x30
  else if 0x61 ≤ b && b ≤ 0x66 then b - 0x61 + 10
  else b - 0x41 + 10

/-- The value of a big-endian string of hexadecimal digit bytes. -/
def hexDigitsVal (digits : List Nat) : Nat :=
  digits.foldl (fun acc b => acc * 16 + hexDigitVal b) 0

/-- The optional leading `+` sign accepted by `from_str_radix`. -/
def stripPlus : List Nat → List Nat
  | 0x2b :: rest => rest
  | bytes => bytes

/-- Models `usize::from_str_radix(s, 16)` on the UTF-8 bytes of `s`
(64-bit `usize`): an optional leading `+`, then at least one hexadecimal
digit, value below `2^64`; anything else is an error.  (A digit byte is
ASCII, so on a valid-UTF-8 input the byte-level reading coincides with the
character-level one.) -/
def fromStrRadix16 (bytes : List Nat) : Option Nat :=
  let digits := stripPlus bytes
  if digits.isEmpty then none
  else if digits.all isHexDigitByte then
    let v := hexDigitsVal digits
    if v < 2 ^ 64 then some v else none
  else none

/-- A UTF-8 continuation byte (`0x80..0xBF`). -/
def utf8Cont (b : Nat) : Bool := 0x80 ≤ b && b < 0xc0

/-- The admissible range of the byte following a multi-byte leading byte,
per the Rust std validation table: `E0` demands `A0..BF` (no overlongs),
`ED` demands `80..9F` (no surrogates), `F0` demands `90..BF` (no
overlongs), `F4` demands `80..8F` (max `U+10FFFF`); any other leading byte
takes an ordinary continuation byte. -/
def utf8SecondOk (b c1 : Nat) : Bool :=
  if b == 0xe0 then 0xa0 ≤ c1 && c1 < 0xc0
  else if b == 0xed then 0x80 ≤ c1 && c1 < 0xa0
  else if b == 0xf0 then 0x90 ≤ c1 && c1 < 0xc0
  else if b == 0xf4 then 0x80 ≤ c1 && c1 < 0x90
  else utf8Cont c1

mutual

/-- Models `std::str::from_utf8` validity on a byte sequence (the full
table: ASCII, 2–4 byte sequences with leading bytes `C2..DF`, `E0..EF`,
`F0..F4`, no overlongs, no surrogates, max `U+10FFFF`). -/
def validUtf8 : List Nat → Bool
  | [] => true
  | b :: rest =>
    if b < 0x80 then validUtf8 rest
    else if 0xc2 ≤ b && b ≤ 0xdf then utf8Tail1 rest
    else if 0xe0 ≤ b && b ≤ 0xef then utf8Tail2 b rest
    else if 0xf0 ≤ b && b ≤ 0xf4 then utf8Tail3 b rest
    else false
termination_by l => l.length

/-- One continuation byte, then the rest of the stream. -/
def utf8Tail1 : List Nat → Bool
  | c1 :: rest => utf8Cont c1 && validUtf8 rest
  | [] => false
termination_by l => l.length

/-- Two continuation bytes (the first range-restricted by the leading
byte), then the rest of the stream. -/
def utf8Tail2 (b : Nat) : List Nat → Bool
  | c1 :: c2 :: rest => utf8SecondOk b c1 && utf8Cont c2 && validUtf8 rest
  | _ => false
termination_by l => l.length

/-- Three continuation bytes (the first range-restricted by the leading
byte), then the rest of the stream. -/
def utf8Tail3 (b : Nat) : List Nat → Bool
  | c1 :: c2 :: c3 :: rest =>
    utf8SecondOk b c1 && utf8Cont c2 && utf8Cont c3 && validUtf8 rest
  | _ => false
termination_by l => l.length

end

/-- Models `read_frame` (`src/mu_sexp.rs` lines 26–60) on a raw byte
buffer.  The framing is `0xFE <ascii-hex-length> 0xFF <payload>`.  The
s-expression parser (`parse_sexp`, i.e. the external lexpr crate composed
with the UTF-8 string decoding already checked here) is the argument
`parse`, applied to the payload bytes.  Returns `.ok none` when no
complete frame is available yet, `.ok (some (value, consumed))` on
success, and `.error` on a fatal parse failure. -/
def read_frame (parse : List Nat → Except String Sexp) (buf : List Nat) :
    Except String (Option (Sexp × Nat)) :=
  match position (fun b => b == 0xfe) buf with
  | none => .ok none
  | some start =>
    match position (fun b => b == 0xff) (buf.drop (start + 1)) with
    | none => .ok none
    | some pos =>
      let sep := start + 1 + pos
      let lenBytes := (buf.drop (start + 1)).take pos
      if !(validUtf8 lenBytes) then .error "invalid utf-8 in frame length"
      else
        match fromStrRadix16 lenBytes with
        | none => .error "invalid hex length in frame"
        | some length =>
          let dataStart := sep + 1
          let dataEnd := dataStart + length
          if buf.length < dataEnd then .ok none
          else
            let sexpBytes := (buf.drop dataStart).take length
            if !(validUtf8 sexpBytes) then .error "invalid utf-8 in sexp data"
            else
              match parse sexpBytes with
              | .error e => .error e
              | .ok value => .ok (some (value, dataEnd))

/-- The ASCII byte of a hexadecimal digit, lowercase (as produced by the
Rust `{:x}` formatting used to build the frame length). -/
def hexChar (d : Nat) : Nat :=
  if d < 10 then 0x30 + d else 0x61 + (d - 10)

/-- The lowercase-hexadecimal ASCII bytes of `n`, most significant digit
first, no leading zeros (`0` renders as `"0"`), matching `format!("{:x}")`
as used by the mu framing test harness and the frame encoder of the
round-trip property. -/
def natToHexLower (n : Nat) : List Nat :=
  if _h : n < 16 then [hexChar n]
  else natToHexLower (n / 16) ++ [hexChar (n % 16)]
decreasing_by exact Nat.div_lt_self (by omega) (by omega)

/-- The frame encoding of a payload:
`0xFE ++ lowercase-hex(len(payload)) ++ 0xFF ++ payload`. -/
def encodeFrame (payload : List Nat) : List Nat :=
  0xfe :: natToHexLower payload.length ++ 0xff :: payload

/-! ## Event-loop select arms (`src/tui/mod.rs`) -/

/-- The five arms of the `tokio::select!` in the event loop
(`src/tui/mod.rs` lines 2009–2077): keyboard events, the IPC command
channel, the indexing poll, background shell-job completions, and the
redraw timeout. -/
inductive EventSource where
  | keyboard | ipc | indexPoll | shellJobs | timeout
deriving Repr, DecidableEq, Inhabited

/-- The guard of each select arm as written in the source: only the
`poll_index_frame` arm carries a guard (`if app.indexing`); every other
arm is unconditional. -/
def armEnabled (indexing : Bool) : EventSource → Bool
  | .indexPoll => indexing
  | _ => true

/-- The arms enabled in one iteration of the multi-way wait, given the
`app.indexing` flag. -/
def enabledArms (indexing : Bool) : List EventSource :=
  [EventSource.keyboard, EventSource.ipc, EventSource.indexPoll,
    EventSource.shellJobs, EventSource.timeout].filter (armEnabled indexing)

/-! ## Test fixtures (concrete protocol values) -/

/-- A minimal header plist carrying only a `:docid`. -/
def docidPlist (d : Int) : Sexp :=
  sexpList [Sexp.kw "docid", Sexp.num d]

/-- The envelope decoded from `docidPlist d` (with `now = 0`): every
optional field takes its documented default. -/
def docidEnvelope (d : Nat) : Envelope :=
  { docid := d, messageId := "", subject := "(no subject)", fromAddrs := [],
    toAddrs := [], date := 0, flags := [], maildir := "", path := "",
    threadMeta := ThreadMeta.defaultMeta }

/-- The `(:erase t)` progress frame. -/
def eraseFrame : Sexp :=
  sexpList [Sexp.kw "erase", Sexp.sym "t"]

/-- A `(:found N ...)` terminator frame. -/
def foundFrame (n : Int) : Sexp :=
  sexpList [Sexp.kw "found", Sexp.num n]

/-- A `(:headers (...))` batch frame. -/
def headersFrame (envs : List Sexp) : Sexp :=
  sexpList [Sexp.kw "headers", sexpList envs]

/-- An envelope fixture that fixes only the thread metadata used by the
grouping function; every other field is defaulted. -/
def envRL (root : Bool) (level : Nat) : Envelope :=
  { docid := 0, messageId := "", subject := "", fromAddrs := [],
    toAddrs := [], date := 0, flags := [], maildir := "", path := "",
    threadMeta := { level := level, root := root, threadSubject := true } }

/-! ## C5: index-poll frame classification -/

/-- C5: for every frame read by `poll_index_frame`, an erase frame yields
"not done"; a frame with an `:error` key fails the operation; a frame with
an `:index` key or a frame with an `:info` key each independently yields
"done"; and every other frame (including `:update`) yields "not done" —
i.e. the source classifier coincides with the spec's classifier
`pollIndexSpec` on every value. -/
theorem poll_index_frame_classification (value : Sexp) :
    poll_index_frame value = pollIndexSpec value := by
  unfold poll_index_frame pollIndexSpec
  by_cases he : is_erase value
  · simp [he]
  · cases herr : is_error value with
    | some e => simp [he, herr]
    | none =>
      by_cases h1 : (plist_get value "index").isSome <;>
        by_cases h2 : (plist_get value "info").isSome <;>
          by_cases h3 : is_update value <;>
            simp [he, herr, h1, h2, h3]

/-! ## C9: event-loop polling guard -/

/-- C9: the event loop polls the in-progress indexing operation if and only
if the indexing flag is set, and the polling arm sits in the same multi-way
wait as the keyboard, IPC and background-job arms, which are enabled
unconditionally. -/
theorem event_loop_index_poll_guard (indexing : Bool) :
    (EventSource.indexPoll ∈ enabledArms indexing ↔ indexing = true) ∧
    EventSource.keyboard ∈ enabledArms indexing ∧
    EventSource.ipc ∈ enabledArms indexing ∧
    EventSource.shellJobs ∈ enabledArms indexing := by
  cases indexing <;> simp [enabledArms, armEnabled]

/-! ## C6: move fallback -/

/-- C6: for every docid, if the (non-error) response to `move_msg` lacks an
`:update` sub-plist, or its `:update` sub-plist lacks a `:docid` integer,
the call still succeeds and returns the original docid. -/
theorem move_msg_fallback (docid : Nat) (resp : Sexp)
    (herr : is_error resp = none)
    (hshape : plist_get resp "update" = none ∨
      ∃ u, plist_get resp "update" = some u ∧ plist_get_u32 u "docid" = none) :
    move_msg_result docid resp = Except.ok docid := by
  unfold move_msg_result
  rcases hshape with h | ⟨u, hu, hd⟩
  · simp [herr, h]
  · simp [herr, hu, hd]

/-- Witness for C6: a move response whose `:update` sub-plist has no
`:docid` still returns the original docid 7. -/
theorem move_msg_fallback_witness :
    move_msg_result 7 (sexpList [Sexp.kw "update",
      sexpList [Sexp.kw "path", Sexp.str "x"]]) = Except.ok 7 :=
  move_msg_fallback 7 _ (by rfl) (Or.inr ⟨_, rfl, rfl⟩)

/-! ## C7: error-text preference order -/

/-- C7: for every plist with an `:error` key, the error classifier prefers
the string under `:message`, then a string `:error` value, then a numeric
`:error` rendered as "error code N", then the generic fallback; a plist
without an `:error` key reports no error. -/
theorem is_error_preference (value : Sexp) :
    (plist_get value "error" = none → is_error value = none) ∧
    ((plist_get value "error").isSome = true →
      ∀ m, plist_get_str value "message" = some m →
        is_error value = some m) ∧
    ((plist_get value "error").isSome = true →
      plist_get_str value "message" = none →
      ∀ s, plist_get_str value "error" = some s →
        is_error value = some s) ∧
    ((plist_get value "error").isSome = true →
      plist_get_str value "message" = none →
      plist_get_str value "error" = none →
      ∀ n, plist_get_u32 value "error" = some n →
        is_error value = some ("error code " ++ toString n)) ∧
    ((plist_get value "error").isSome = true →
      plist_get_str value "message" = none →
      plist_get_str value "error" = none →
      plist_get_u32 value "error" = none →
      is_error value = some "unknown error") := by
  refine ⟨?_, ?_, ?_, ?_, ?_⟩
  · intro h; simp [is_error, h]
  · intro h m hm; simp [is_error, h, hm]
  · intro h hm s hs; simp [is_error, h, hm, hs]
  · intro h hm hs n hn; simp [is_error, h, hm, hs, hn]
  · intro h hm hs hn; simp [is_error, h, hm, hs, hn]

/-- Witness for C7: each branch of the preference order realized on a
concrete plist; in particular a plist with both `:error "E1"` and
`:message "readable"` classifies with text "readable". -/
theorem is_error_preference_witness :
    is_error (sexpList [Sexp.kw "error", Sexp.str "E1",
        Sexp.kw "message", Sexp.str "readable"]) = some "readable" ∧
    is_error (sexpList [Sexp.kw "error", Sexp.str "E1"]) = some "E1" ∧
    is_error (sexpList [Sexp.kw "error", Sexp.num 17]) =
      some ("error code " ++ toString (17 : Nat)) ∧
    is_error (sexpList [Sexp.kw "error", Sexp.nilv]) = some "unknown error" ∧
    is_error (sexpList [Sexp.kw "found", Sexp.num 3]) = none :=
  ⟨(is_error_preference _).2.1 (by rfl) "readable" (by rfl),
    (is_error_preference _).2.2.1 (by rfl) (by rfl) "E1" (by rfl),
    (is_error_preference _).2.2.2.1 (by rfl) (by rfl) (by rfl) 17 (by rfl),
    (is_error_preference _).2.2.2.2 (by rfl) (by rfl) (by rfl) (by rfl),
    (is_error_preference _).1 (by rfl)⟩

/-! ## C2: conversation grouping boundaries -/

/-- C2 counterexample: the grouping does not start a new group exactly at
`root == true`, and "other fields arbitrary" fails.  With root flags
`[true, false, true, false, false]` and every `level` equal to 0 (a value
the claim leaves arbitrary) the grouping yields five singleton
conversations, not two; and with the repository's own thread-shaped levels
`[0, 1, 0, 1, 1]` it yields conversations of sizes 2 and 3, not 1 and 4
(the envelope with `root == true` in third position always opens a new
group, so sizes 1 and 4 are unreachable). -/
theorem group_c2_counterexample :
    ((group_into_conversations
        [envRL true 0, envRL false 0, envRL true 0, envRL false 0,
          envRL false 0]).map (fun c => c.messages.length) =
      [1, 1, 1, 1, 1] ∧
    ¬ (group_into_conversations
        [envRL true 0, envRL false 0, envRL true 0, envRL false 0,
          envRL false 0]).length = 2) ∧
    (group_into_conversations
        [envRL true 0, envRL false 1, envRL true 0, envRL false 1,
          envRL false 1]).map (fun c => c.messages.length) = [2, 3] := by
  exact ⟨⟨rfl, by decide⟩, rfl⟩

/-- C2 (amended): grouping starts a new group exactly when an envelope has
`root == true` or `level == 0`; for every list of five envelopes whose root
flags are `[true, false, true, false, false]` in that order and whose
`root == false` envelopes have a non-zero `level`, the grouping produces
exactly two conversations, of sizes 2 and 3. -/
theorem group_c2_amended (e1 e2 e3 e4 e5 : Envelope)
    (h1 : e1.threadMeta.root = true)
    (h2 : e2.threadMeta.root = false) (h2l : e2.threadMeta.level ≠ 0)
    (h3 : e3.threadMeta.root = true)
    (h4 : e4.threadMeta.root = false) (h4l : e4.threadMeta.level ≠ 0)
    (h5 : e5.threadMeta.root = false) (h5l : e5.threadMeta.level ≠ 0) :
    (group_into_conversations [e1, e2, e3, e4, e5]).map
      (fun c => c.messages.length) = [2, 3] := by
  have b2 : (e2.threadMeta.level == 0) = false := by
    simpa using h2l
  have b4 : (e4.threadMeta.level == 0) = false := by
    simpa using h4l
  have b5 : (e5.threadMeta.level == 0) = false := by
    simpa using h5l
  simp [group_into_conversations, groupGo, h1, h2, h3, h4, h5, b2, b4, b5]

/-- Witness for C2 (amended) at a concrete input. -/
theorem group_c2_amended_witness :
    (group_into_conversations
        [envRL true 0, envRL false 1, envRL true 0, envRL false 1,
          envRL false 1]).map (fun c => c.messages.length) = [2, 3] :=
  group_c2_amended (envRL true 0) (envRL false 1) (envRL true 0)
    (envRL false 1) (envRL false 1) rfl rfl (by decide) rfl rfl (by decide)
    rfl (by decide)

/-! ## C10: grouping is a partition -/

/-- The running invariant of the grouping loop: the messages of the
produced conversations, joined, are the already-finished groups, then the
group under construction, then the unprocessed input. -/
theorem groupGo_join (envs : List Envelope) :
    ∀ (current : List Envelope) (convs : List Conversation),
      ((groupGo envs current convs).map Conversation.messages).flatten =
        (convs.map Conversation.messages).flatten ++ current ++ envs := by
  induction envs with
  | nil =>
    intro current convs
    by_cases hc : current.isEmpty
    · have : current = [] := by simpa [List.isEmpty_iff] using hc
      simp [groupGo, hc, this]
    · simp [groupGo, hc]
  | cons e rest ih =>
    intro current convs
    by_cases hs : (e.threadMeta.root || e.threadMeta.level == 0) &&
        !current.isEmpty
    · rw [groupGo, if_pos hs, ih]
      simp
    · rw [groupGo, if_neg hs, ih]
      simp

/-- The grouping loop never emits an empty conversation (each flush is
guarded by non-emptiness of the group under construction). -/
theorem groupGo_nonempty (envs : List Envelope) :
    ∀ (current : List Envelope) (convs : List Conversation),
      (∀ c ∈ convs, c.messages ≠ []) →
      ∀ c ∈ groupGo envs current convs, c.messages ≠ [] := by
  induction envs with
  | nil =>
    intro current convs hconvs c hc
    by_cases hcur : current.isEmpty
    · rw [groupGo, if_pos hcur] at hc
      exact hconvs c hc
    · rw [groupGo, if_neg hcur] at hc
      rcases List.mem_append.mp hc with h | h
      · exact hconvs c h
      · have : c = ⟨current⟩ := by simpa using h
        subst this
        simpa [List.isEmpty_iff] using hcur
  | cons e rest ih =>
    intro current convs hconvs c hc
    by_cases hs : (e.threadMeta.root || e.threadMeta.level == 0) &&
        !current.isEmpty
    · rw [groupGo, if_pos hs] at hc
      refine ih [e] _ ?_ c hc
      intro c' hc'
      rcases List.mem_append.mp hc' with h | h
      · exact hconvs c' h
      · have : c' = ⟨current⟩ := by simpa using h
        subst this
        have : ¬ current.isEmpty := by
          intro habs
          simp [habs] at hs
        simpa [List.isEmpty_iff] using this
    · rw [groupGo, if_neg hs] at hc
      exact ih (current ++ [e]) convs hconvs c hc

/-- A non-empty conversation has a well-defined representative. -/
theorem representative_isSome (c : Conversation) (h : c.messages ≠ []) :
    (Conversation.representative c).isSome = true := by
  unfold Conversation.representative
  cases hf : c.messages.reverse.find? Envelope.is_unread with
  | some e => rfl
  | none =>
    simpa [List.getLast?_isSome] using h

/-- C10: grouping is a partition: concatenating the messages of the
conversations returned by `group_into_conversations` yields exactly the
input list, in order, and every returned conversation is non-empty (so
`Conversation::representative` — and with it `subject` — is well defined
on every conversation the grouping produces). -/
theorem group_partition (envelopes : List Envelope) :
    ((group_into_conversations envelopes).map Conversation.messages).flatten =
      envelopes ∧
    ∀ c ∈ group_into_conversations envelopes,
      c.messages ≠ [] ∧ (Conversation.representative c).isSome = true := by
  constructor
  · by_cases he : envelopes.isEmpty
    · have : envelopes = [] := by simpa [List.isEmpty_iff] using he
      simp [group_into_conversations, this]
    · rw [group_into_conversations, if_neg he]
      simpa using groupGo_join envelopes [] []
  · intro c hc
    have hne : c.messages ≠ [] := by
      by_cases he : envelopes.isEmpty
      · rw [group_into_conversations, if_pos he] at hc
        simp at hc
      · rw [group_into_conversations, if_neg he] at hc
        exact groupGo_nonempty envelopes [] [] (by simp) c hc
    exact ⟨hne, representative_isSome c hne⟩

/-- Witness for C10 at a concrete input. -/
theorem group_partition_witness :
    ((group_into_conversations [envRL true 0]).map
        Conversation.messages).flatten = [envRL true 0] ∧
    (Conversation.mk [envRL true 0]).messages ≠ [] ∧
    (Conversation.representative ⟨[envRL true 0]⟩).isSome = true :=
  ⟨(group_partition [envRL true 0]).1,
    (group_partition [envRL true 0]).2 ⟨[envRL true 0]⟩ (by decide)⟩

/-! ## C8: Emacs time decoding -/

/-- `sexpList` builds a proper list whose cell cars are exactly the given
elements. -/
theorem sexpList_cells (l : List Sexp) : (sexpList l).cells = l := by
  induction l with
  | nil => rfl
  | cons y ys ih => simp [sexpList, Sexp.cells, ih]

/-- `as_cons` on a non-empty built list returns all elements. -/
theorem sexpList_asCons (x : Sexp) (xs : List Sexp) :
    (sexpList (x :: xs)).asCons = some (x :: xs) := by
  simp [sexpList, Sexp.asCons, sexpList_cells]

/-- C8 counterexample: the time parser does not decode every list of at
least two integers to `high * 65536 + low` seconds — a negative component
fails the `as_u64` extraction, so `(-1 0)` yields no timestamp at all
(here with the timestamp constructor modelled as the identity embedding,
under which the claim would demand `some (-65536)`). -/
theorem parse_emacs_time_c8_counterexample :
    parse_emacs_time (fun s => some s)
        (sexpList [Sexp.num (-1), Sexp.num 0]) ≠
      some ((-1) * 65536 + 0) := by
  decide

/-- C8 (amended): for every list of at least two integers `(high low ...)`
whose first two elements are non-negative, below `2^64`, and whose
combination `high * 65536 + low` is below `2^63` (so the `u64` arithmetic
and the `as i64` cast are value-preserving), the time parser applies the
UTC timestamp constructor to exactly `high * 65536 + low` epoch seconds,
ignoring any further elements; in particular `(27028 6999 0)` decodes to
exactly `27028 * 65536 + 6999` seconds. -/
theorem parse_emacs_time_decode (mk : Int → Option Int) (high low : Nat)
    (rest : List Sexp) (hh : high < 2 ^ 64) (hl : low < 2 ^ 64)
    (hsum : high * 65536 + low < 2 ^ 63) :
    parse_emacs_time mk
        (sexpList (Sexp.num (high : Int) :: Sexp.num (low : Int) :: rest)) =
      mk ((high * 65536 + low : Nat) : Int) := by
  have hhu : (Sexp.num (high : Int)).asU64 = some high := by
    rw [Sexp.asU64, if_pos]
    · simp
    · exact ⟨Int.natCast_nonneg high, by exact_mod_cast hh⟩
  have hlu : (Sexp.num (low : Int)).asU64 = some low := by
    rw [Sexp.asU64, if_pos]
    · simp
    · exact ⟨Int.natCast_nonneg low, by exact_mod_cast hl⟩
  have hm : int64OfUInt64 ((high * 65536 + low) % 2 ^ 64) =
      ((high * 65536 + low : Nat) : Int) := by
    have h1 : (high * 65536 + low) % 2 ^ 64 = high * 65536 + low :=
      Nat.mod_eq_of_lt
        (lt_trans hsum (Nat.pow_lt_pow_right (by omega) (by omega)))
    rw [h1, int64OfUInt64, if_pos hsum]
  rw [parse_emacs_time, sexpList_asCons]
  simp only [hhu, hlu, Option.some_bind]
  exact congrArg mk hm

/-- Witness for C8 (amended): the concrete tuple `(27028 6999 0)`. -/
theorem parse_emacs_time_decode_witness :
    parse_emacs_time (fun s => some s)
        (sexpList [Sexp.num 27028, Sexp.num 6999, Sexp.num 0]) =
      some ((27028 * 65536 + 6999 : Nat) : Int) := by
  have h := parse_emacs_time_decode (fun s => some s) 27028 6999
    [Sexp.num 0] (by norm_num) (by norm_num) (by norm_num)
  simpa using h

/-! ## C1: find() streaming accumulation -/

/-- The find response loop on `fs ++ [term]`: when every frame of `fs` that
is not an erase frame is a non-error, non-found frame that decodes to a
batch (the batches listed in order in `bs`), and `term` is a found marker,
the loop returns the accumulator followed by the batches joined in
order. -/
theorem findLoop_go (mk : Int → Option Int) (now : Int) :
    ∀ (fs : List Sexp) (bs : List (List Envelope)) (term : Sexp)
      (acc : List Envelope),
      (∀ f ∈ fs, is_erase f = false →
        is_error f = none ∧ is_found f = none) →
      List.Forall₂ (fun f b => parse_find_response mk now f = Except.ok b)
        (fs.filter (fun f => !is_erase f)) bs →
      is_erase term = false → is_error term = none →
      (is_found term).isSome = true →
      findLoop mk now (fs ++ [term]) acc = Except.ok (acc ++ bs.flatten) := by
  intro fs
  induction fs with
  | nil =>
    intro bs term acc _ hdec h1 h2 h3
    have hbs : bs = [] := by cases hdec; rfl
    subst hbs
    simp [findLoop, h1, h2, h3]
  | cons f rest ih =>
    intro bs term acc hfs hdec h1 h2 h3
    by_cases he : is_erase f
    · rw [List.filter_cons_of_neg (by simp [he])] at hdec
      have step : findLoop mk now ((f :: rest) ++ [term]) acc =
          findLoop mk now (rest ++ [term]) acc := by
        simp [findLoop, he]
      rw [step]
      exact ih bs term acc (fun g hg => hfs g (List.mem_cons_of_mem f hg))
        hdec h1 h2 h3
    · have hne : is_erase f = false := by simpa using he
      rw [List.filter_cons_of_pos (by simp [hne])] at hdec
      cases hdec with
      | cons hfb hrest =>
        rename_i b bs'
        obtain ⟨herrf, hfoundf⟩ := hfs f (by simp) hne
        calc findLoop mk now ((f :: rest) ++ [term]) acc
            = findLoop mk now (rest ++ [term]) (acc ++ b) := by
              simp [findLoop, hne, herrf, hfoundf, hfb]
          _ = Except.ok ((acc ++ b) ++ bs'.flatten) :=
              ih bs' term (acc ++ b)
                (fun g hg => hfs g (List.mem_cons_of_mem f hg)) hrest h1 h2 h3
          _ = Except.ok (acc ++ (b :: bs').flatten) := by simp

/-- C1: for every sequence of response frames made of any interleaving of
erase/progress frames and header-batch frames, terminated by a found
frame, the find loop returns exactly the envelopes decoded from the
batches, concatenated in the order the frames were received (no
reordering, no deduplication), skipping erase frames and stopping at the
found frame. -/
theorem find_streaming_accumulation (mk : Int → Option Int) (now : Int)
    (fs : List Sexp) (bs : List (List Envelope)) (term : Sexp)
    (hfs : ∀ f ∈ fs, is_erase f = false →
      is_error f = none ∧ is_found f = none)
    (hdec : List.Forall₂ (fun f b => parse_find_response mk now f = Except.ok b)
      (fs.filter (fun f => !is_erase f)) bs)
    (hterm_erase : is_erase term = false)
    (hterm_err : is_error term = none)
    (hterm_found : (is_found term).isSome = true) :
    findLoop mk now (fs ++ [term]) [] = Except.ok bs.flatten := by
  simpa using findLoop_go mk now fs bs term [] hfs hdec hterm_erase
    hterm_err hterm_found

/-- Witness for C1: the sequence
`[erase, headers-batch-A of 2 envelopes, headers-batch-B of 1 envelope,
found(3)]` yields exactly 3 envelopes in A-then-B order with no error. -/
theorem find_streaming_accumulation_witness :
    findLoop (fun s => some s) 0
        [eraseFrame, headersFrame [docidPlist 1, docidPlist 2],
          headersFrame [docidPlist 3], foundFrame 3] [] =
      Except.ok [docidEnvelope 1, docidEnvelope 2, docidEnvelope 3] := by
  have h := find_streaming_accumulation (fun s => some s) 0
    [eraseFrame, headersFrame [docidPlist 1, docidPlist 2],
      headersFrame [docidPlist 3]]
    [[docidEnvelope 1, docidEnvelope 2], [docidEnvelope 3]]
    (foundFrame 3)
    (by decide)
    (by
      have hf : ([eraseFrame, headersFrame [docidPlist 1, docidPlist 2],
          headersFrame [docidPlist 3]].filter (fun f => !is_erase f)) =
          [headersFrame [docidPlist 1, docidPlist 2],
            headersFrame [docidPlist 3]] := by decide
      rw [hf]
      exact List.Forall₂.cons (by rfl)
        (List.Forall₂.cons (by rfl) List.Forall₂.nil))
    (by decide) (by decide) (by decide)
  simpa using h

/-! ## Frame codec lemmas -/

theorem position_eq_none (p : Nat → Bool) (l : List Nat)
    (h : ∀ b ∈ l, p b = false) : position p l = none := by
  induction l with
  | nil => rfl
  | cons x rest ih =>
    simp [position, h x (by simp), ih (fun b hb => h b (by simp [hb]))]

theorem position_append (p : Nat → Bool) (l1 l2 : List Nat) (x : Nat)
    (h1 : ∀ b ∈ l1, p b = false) (hx : p x = true) :
    position p (l1 ++ x :: l2) = some l1.length := by
  induction l1 with
  | nil => simp [position, hx]
  | cons y rest ih =>
    have hy : p y = false := h1 y (by simp)
    simp [position, hy, ih (fun b hb => h1 b (by simp [hb]))]

theorem isHexDigitByte_lt (b : Nat) (h : isHexDigitByte b = true) :
    b < 0x80 := by
  unfold isHexDigitByte at h
  simp only [Bool.or_eq_true, Bool.and_eq_true, decide_eq_true_eq] at h
  omega

theorem isHexDigitByte_ne_plus (b : Nat) (h : isHexDigitByte b = true) :
    b ≠ 0x2b := by
  intro hb
  subst hb
  exact absurd h (by decide)

theorem isHexDigitByte_ne_ff (b : Nat) (h : isHexDigitByte b = true) :
    (b == 0xff) = false := by
  have := isHexDigitByte_lt b h
  simp only [beq_eq_false_iff_ne]
  omega

theorem hexChar_isHexDigit (d : Nat) (h : d < 16) :
    isHexDigitByte (hexChar d) = true := by
  unfold hexChar isHexDigitByte
  by_cases hd : d < 10
  · simp only [if_pos hd, Bool.or_eq_true, Bool.and_eq_true, decide_eq_true_eq]
    omega
  · simp only [if_neg hd, Bool.or_eq_true, Bool.and_eq_true, decide_eq_true_eq]
    omega

theorem hexDigitVal_hexChar (d : Nat) (h : d < 16) :
    hexDigitVal (hexChar d) = d := by
  unfold hexChar hexDigitVal
  by_cases hd : d < 10
  · rw [if_pos hd]
    rw [if_pos (by simp only [Bool.and_eq_true, decide_eq_true_eq]; omega)]
    omega
  · rw [if_neg hd]
    rw [if_neg (by simp only [Bool.and_eq_true, decide_eq_true_eq]; omega)]
    rw [if_pos (by simp only [Bool.and_eq_true, decide_eq_true_eq]; omega)]
    omega

theorem natToHexLower_hex (n : Nat) :
    ∀ b ∈ natToHexLower n, isHexDigitByte b = true := by
  induction n using Nat.strong_induction_on with
  | _ n ih =>
    by_cases h : n < 16
    · rw [natToHexLower, dif_pos h]
      intro b hb
      simp only [List.mem_singleton] at hb
      subst hb
      exact hexChar_isHexDigit n h
    · rw [natToHexLower, dif_neg h]
      intro b hb
      rcases List.mem_append.mp hb with h1 | h2
      · exact ih (n / 16) (Nat.div_lt_self (by omega) (by omega)) b h1
      · simp only [List.mem_singleton] at h2
        subst h2
        exact hexChar_isHexDigit _ (Nat.mod_lt _ (by omega))

theorem natToHexLower_ne_nil (n : Nat) : natToHexLower n ≠ [] := by
  by_cases h : n < 16
  · rw [natToHexLower, dif_pos h]
    simp
  · rw [natToHexLower, dif_neg h]
    simp

theorem hexDigitsVal_append_single (l : List Nat) (b : Nat) :
    hexDigitsVal (l ++ [b]) = hexDigitsVal l * 16 + hexDigitVal b := by
  unfold hexDigitsVal
  rw [List.foldl_append]
  rfl

theorem natToHexLower_val (n : Nat) :
    hexDigitsVal (natToHexLower n) = n := by
  induction n using Nat.strong_induction_on with
  | _ n ih =>
    by_cases h : n < 16
    · rw [natToHexLower, dif_pos h]
      show hexDigitsVal [hexChar n] = n
      unfold hexDigitsVal
      simp [hexDigitVal_hexChar n h]
    · rw [natToHexLower, dif_neg h, hexDigitsVal_append_single,
        ih (n / 16) (Nat.div_lt_self (by omega) (by omega)),
        hexDigitVal_hexChar (n % 16) (Nat.mod_lt _ (by omega))]
      omega

theorem validUtf8_of_ascii (l : List Nat) (h : ∀ b ∈ l, b < 0x80) :
    validUtf8 l = true := by
  induction l with
  | nil => rw [validUtf8]
  | cons b rest ih =>
    rw [validUtf8, if_pos (h b (by simp))]
    exact ih (fun x hx => h x (by simp [hx]))


theorem stripPlus_of_ne (b : Nat) (bs : List Nat) (h : b ≠ 0x2b) :
    stripPlus (b :: bs) = b :: bs := by
  unfold stripPlus
  split
  · rename_i heq
    rw [List.cons.injEq] at heq
    exact absurd heq.1 h
  · rfl

theorem fromStrRadix16_hexDigits (l : List Nat) (hne : l ≠ [])
    (hhex : ∀ b ∈ l, isHexDigitByte b = true)
    (hv : hexDigitsVal l < 2 ^ 64) :
    fromStrRadix16 l = some (hexDigitsVal l) := by
  obtain ⟨b, bs, rfl⟩ := List.exists_cons_of_ne_nil hne
  have hb : isHexDigitByte b = true := hhex b (by simp)
  rw [fromStrRadix16,
    stripPlus_of_ne b bs (isHexDigitByte_ne_plus b hb)]
  rw [if_neg (by simp), if_pos (by simpa [List.all_eq_true] using hhex),
    if_pos hv]

/-! ## C3: frame round-trip -/

/-- C3: for every payload string `P` (as its UTF-8 bytes, hence valid
UTF-8 and of length below `2^64`), applying `read_frame` to the byte
sequence `0xFE ++ lowercase-hex(len(P)) ++ 0xFF ++ P` yields `some` pair
whose value equals parsing `P` directly and whose consumed-bytes count
equals the length of the whole encoded sequence. -/
theorem read_frame_roundtrip (parse : List Nat → Except String Sexp)
    (payload : List Nat) (v : Sexp)
    (hutf : validUtf8 payload = true)
    (hlen : payload.length < 2 ^ 64)
    (hparse : parse payload = Except.ok v) :
    read_frame parse (encodeFrame payload) =
      Except.ok (some (v, (encodeFrame payload).length)) := by
  have hhex := natToHexLower_hex payload.length
  have hne := natToHexLower_ne_nil payload.length
  have hval := natToHexLower_val payload.length
  have hascii : ∀ b ∈ natToHexLower payload.length, b < 0x80 :=
    fun b hb => isHexDigitByte_lt b (hhex b hb)
  have hvu : validUtf8 (natToHexLower payload.length) = true :=
    validUtf8_of_ascii _ hascii
  have hfsr : fromStrRadix16 (natToHexLower payload.length) =
      some payload.length := by
    rw [fromStrRadix16_hexDigits _ hne hhex (by rw [hval]; exact hlen), hval]
  have p1 : position (fun b => b == 0xfe)
      (0xfe :: (natToHexLower payload.length ++ 0xff :: payload)) =
      some 0 := by
    simp [position]
  have p2 : position (fun b => b == 0xff)
      (natToHexLower payload.length ++ 0xff :: payload) =
      some (natToHexLower payload.length).length :=
    position_append _ _ _ _
      (fun b hb => isHexDigitByte_ne_ff b (hhex b hb)) (by simp)
  have hdrop1 : (0xfe :: (natToHexLower payload.length ++ 0xff :: payload)).drop (0 + 1) =
      natToHexLower payload.length ++ 0xff :: payload := by
    simp
  have htake : (natToHexLower payload.length ++ 0xff :: payload).take
      (natToHexLower payload.length).length = natToHexLower payload.length :=
    List.take_left _ _
  have hlength : (0xfe :: (natToHexLower payload.length ++ 0xff :: payload)).length =
      0 + 1 + (natToHexLower payload.length).length + 1 + payload.length := by
    simp
    omega
  have hdrop2 : (0xfe :: (natToHexLower payload.length ++ 0xff :: payload)).drop
      (0 + 1 + (natToHexLower payload.length).length + 1) = payload := by
    have h1 : 0 + 1 + (natToHexLower payload.length).length + 1 =
        ((natToHexLower payload.length) ++ [0xff]).length + 1 := by
      simp
      omega
    rw [h1]
    rw [List.drop_succ_cons]
    have h2 : natToHexLower payload.length ++ 0xff :: payload =
        (natToHexLower payload.length ++ [0xff]) ++ payload := by
      simp
    rw [h2, List.drop_left]
  rw [read_frame, encodeFrame]
  simp only [List.cons_append]
  rw [p1]
  simp only [hdrop1, p2, htake, hvu, Bool.not_true, if_neg (by simp : ¬ (false = true)), hfsr]
  rw [hlength, if_neg (lt_irrefl _), hdrop2, List.take_length, hutf, hparse]
  simp

/-- Witness for C3: the payload `"()"` with a parser returning the empty
list value. -/
theorem read_frame_roundtrip_witness :
    read_frame (fun _ => Except.ok Sexp.null) (encodeFrame [0x28, 0x29]) =
      Except.ok (some (Sexp.null, (encodeFrame [0x28, 0x29]).length)) :=
  read_frame_roundtrip (fun _ => Except.ok Sexp.null) [0x28, 0x29] Sexp.null
    (by simp [validUtf8]) (by norm_num) rfl

/-! ## C4: partial frame is not an error -/

/-- C4: for every valid encoded frame
`0xFE ++ hex-digits(len(payload)) ++ 0xFF ++ payload` and every truncation
of it at a byte boundary strictly before the end of the payload,
`read_frame` on the truncated buffer returns the "no frame yet" outcome
(`Ok(None)`), never a parse error. -/
theorem read_frame_partial (parse : List Nat → Except String Sexp)
    (hx payload : List Nat) (t : Nat)
    (hne : hx ≠ [])
    (hhex : ∀ b ∈ hx, isHexDigitByte b = true)
    (hvl : hexDigitsVal hx = payload.length)
    (hlen : payload.length < 2 ^ 64)
    (ht : t < (0xfe :: (hx ++ 0xff :: payload)).length) :
    read_frame parse ((0xfe :: (hx ++ 0xff :: payload)).take t) =
      Except.ok none := by
  match t with
  | 0 =>
    rw [List.take_zero]
    rw [read_frame]
    rw [show position (fun b => b == 0xfe) ([] : List Nat) = none from rfl]
  | s + 1 =>
    rw [List.take_succ_cons]
    by_cases hs : s ≤ hx.length
    · -- cut inside the hex length field (or right at the separator)
      have htk : (hx ++ 0xff :: payload).take s = hx.take s := by
        rw [List.take_append_eq_append_take,
          Nat.sub_eq_zero_of_le hs, List.take_zero, List.append_nil]
      rw [htk]
      rw [read_frame]
      have p1 : position (fun b => b == 0xfe) (0xfe :: hx.take s) = some 0 := by
        simp [position]
      rw [p1]
      have hnone : position (fun b => b == 0xff)
          ((0xfe :: hx.take s).drop (0 + 1)) = none := by
        have : (0xfe :: hx.take s).drop (0 + 1) = hx.take s := by simp
        rw [this]
        exact position_eq_none _ _ (fun b hb =>
          isHexDigitByte_ne_ff b (hhex b (List.mem_of_mem_take hb)))
      simp only [hnone]
    · -- cut inside the payload: the frame is incomplete
      push_neg at hs
      obtain ⟨r, hr⟩ : ∃ r, s - hx.length = r + 1 :=
        ⟨s - hx.length - 1, by omega⟩
      have htk : (hx ++ 0xff :: payload).take s =
          hx ++ 0xff :: payload.take r := by
        rw [List.take_append_eq_append_take,
          List.take_of_length_le (by omega), hr, List.take_succ_cons]
      rw [htk]
      have hrlt : r < payload.length := by
        simp only [List.length_cons, List.length_append] at ht
        omega
      rw [read_frame]
      have p1 : position (fun b => b == 0xfe)
          (0xfe :: (hx ++ 0xff :: payload.take r)) =
          some 0 := by
        simp [position]
      rw [p1]
      have hdrop1 : (0xfe :: (hx ++ 0xff :: payload.take r)).drop
          (0 + 1) = hx ++ 0xff :: payload.take r := by
        simp
      have p2 : position (fun b => b == 0xff)
          (hx ++ 0xff :: payload.take r) = some hx.length :=
        position_append _ _ _ _
          (fun b hb => isHexDigitByte_ne_ff b (hhex b hb)) (by simp)
      have htake : (hx ++ 0xff :: payload.take r).take
          hx.length = hx := List.take_left _ _
      have hvu : validUtf8 hx = true :=
        validUtf8_of_ascii _ (fun b hb => isHexDigitByte_lt b (hhex b hb))
      have hfsr : fromStrRadix16 hx = some payload.length := by
        rw [fromStrRadix16_hexDigits _ hne hhex (by rw [hvl]; exact hlen), hvl]
      simp only [hdrop1, p2, htake, hvu, Bool.not_true,
        if_neg (by simp : ¬ (false = true)), hfsr]
      rw [if_pos]
      simp only [List.length_cons, List.length_append, List.length_take]
      omega

/-- Witness for C4: the encoded frame for payload `"()"` truncated one
byte short of completion. -/
theorem read_frame_partial_witness :
    read_frame (fun _ => Except.ok Sexp.null)
        ((0xfe :: ([0x32] ++ 0xff :: [0x28, 0x29])).take 4) =
      Except.ok none :=
  read_frame_partial (fun _ => Except.ok Sexp.null) [0x32] [0x28, 0x29] 4
    (by decide) (by decide) (by decide) (by norm_num) (by decide)

end Hutt
